import Mathlib

/-!
Shallow embedding of the behavioural surface of `core::Runtime`
(src/core/inc/runtime.h in the ROCR runtime).  The header declares the
runtime's public contract (reference-counted driver session, agent
registry, pointer-keyed allocation tracker, queue-id counter, async
signal-event monitor, and copy orchestration); the method bodies live in
a translation unit that is not part of this tree, so each operation is
modelled from the specification text, as the individual doc comments
record.
-/

set_option maxHeartbeats 1000000

/-- Status codes: the subset of `hsa_status_t` values produced or
propagated by the modelled operations. -/
inductive hsa_status_t where
  | HSA_STATUS_SUCCESS
  | HSA_STATUS_ERROR
  | HSA_STATUS_INFO_BREAK
deriving DecidableEq, Repr

/-- Signal handles (`hsa_signal_t.handle`) modelled as bare naturals. -/
abbrev hsa_signal_t := Nat

/-- Signal comparison conditions (`hsa_signal_condition_t`). -/
inductive hsa_signal_condition_t where
  | HSA_SIGNAL_CONDITION_EQ
  | HSA_SIGNAL_CONDITION_NE
  | HSA_SIGNAL_CONDITION_LT
  | HSA_SIGNAL_CONDITION_GTE
deriving DecidableEq, Repr

/-- Signal values (`hsa_signal_value_t`), a signed integer type. -/
abbrev hsa_signal_value_t := Int

/-- Handlers (`hsa_amd_signal_handler`) are opaque function pointers;
modelled as identifying tokens. -/
abbrev hsa_amd_signal_handler := Nat

/-- Agents (`core::Agent*`) are opaque handles here. -/
abbrev Agent := Nat

namespace core.Runtime

/-! ## Lifecycle: `Acquire` / `Release` / `IsOpen` (runtime.h:87-100) -/

/-- Lifecycle state of the `Runtime` singleton: the reference count
(`volatile uint32_t ref_count_;`, runtime.h:435) together with whether
the connection to the kernel driver is currently open. -/
structure RState where
  refCount : Nat
  opened : Bool
deriving DecidableEq, Repr

/-- The initial (and fully torn-down) state: reference count zero,
driver connection closed. -/
def initState : RState := { refCount := 0, opened := false }

/-- Modelled from the spec: the body of `Runtime::Acquire` (runtime.h:89)
is not under src/.  Spec 4.1: "atomically increments ref_count under a
bootstrap-scope lock; if the pre-increment value was 0, performs Load()
(open the driver connection ...).  Returns whether the resulting
connection is open."  `Load` is modelled as succeeding.  The result is
the new state, the returned boolean, and whether `Load` ran. -/
def Acquire (s : RState) : RState × Bool × Bool :=
  if s.refCount = 0 then ({ refCount := 1, opened := true }, true, true)
  else ({ refCount := s.refCount + 1, opened := s.opened }, s.opened, false)

/-- Modelled from the spec: the body of `Runtime::Release` (runtime.h:100)
is not under src/.  Spec 4.1: "decrements ref_count; if it reaches 0,
performs Unload() ...  Returns false if the count was already 0
(unbalanced release is reported, not crashed)."  The result is the new
state, the returned boolean, and whether `Unload` ran. -/
def Release (s : RState) : RState × Bool × Bool :=
  if s.refCount = 0 then (s, false, false)
  else if s.refCount = 1 then ({ refCount := 0, opened := false }, true, true)
  else ({ refCount := s.refCount - 1, opened := s.opened }, true, false)

/-- Modelled from the spec: the body of `Runtime::IsOpen` (runtime.h:93)
is not under src/.  "Checks if connection to kernel driver is opened":
true exactly when the reference count is non-zero. -/
def IsOpen (s : RState) : Bool := decide (s.refCount ≠ 0)

/-- The lifecycle calls an application thread may make, plus the pure
`IsOpen` query (which must not change any state). -/
inductive LifeOp where
  | acquire
  | release
  | isOpenQuery
deriving DecidableEq, Repr

/-- A lifecycle execution: the current state together with how many
times the driver session was opened (`Load`) and closed (`Unload`), and
how many `Release` calls returned true. -/
structure LifeTrace where
  state : RState
  loads : Nat
  unloads : Nat
  succReleases : Nat
deriving DecidableEq, Repr

/-- The execution starting from the pristine closed runtime. -/
def initTrace : LifeTrace :=
  { state := initState, loads := 0, unloads := 0, succReleases := 0 }

/-- One lifecycle call, with its bookkeeping. -/
def lifeStep (t : LifeTrace) : LifeOp → LifeTrace
  | .acquire =>
      { state := (Acquire t.state).1,
        loads := t.loads + (if (Acquire t.state).2.2 then 1 else 0),
        unloads := t.unloads,
        succReleases := t.succReleases }
  | .release =>
      { state := (Release t.state).1,
        loads := t.loads,
        unloads := t.unloads + (if (Release t.state).2.2 then 1 else 0),
        succReleases := t.succReleases + (if (Release t.state).2.1 then 1 else 0) }
  | .isOpenQuery => t

/-- Run a sequence of lifecycle calls. -/
def lifeRun (t : LifeTrace) (ops : List LifeOp) : LifeTrace :=
  ops.foldl lifeStep t

/-- 1 while the session is open (reference count non-zero), else 0. -/
def openBit (s : RState) : Nat := if s.refCount = 0 then 0 else 1

/-- Well-nestedness of a call sequence relative to a current reference
count `c`: no prefix ever releases more than was acquired. -/
def dyckFrom (c : Nat) : List LifeOp → Bool
  | [] => true
  | .acquire :: rest => dyckFrom (c + 1) rest
  | .release :: rest => decide (0 < c) && dyckFrom (c - 1) rest
  | .isOpenQuery :: rest => dyckFrom c rest

/-! ## Allocation tracker (runtime.h:127-157, 273-281, 396-397) -/

/-- Memory regions (`core::MemoryRegion`) are opaque here: an identifier
plus the handle of the agent owning the region (consulted when access is
restricted to the owning agent). -/
structure MemoryRegion where
  id : Nat
  owner : Nat
deriving DecidableEq, Repr

/-- `Runtime::AllocationRegion` (runtime.h:273-281): the region the
block came from, the optionally assigned (access-restricted) agent, and
the size in bytes.  The two-argument constructor leaves
`assigned_agent_` null (runtime.h:275-276). -/
structure AllocationRegion where
  region : MemoryRegion
  assigned_agent_ : Option Nat
  size : Nat
deriving DecidableEq, Repr

/-- `Runtime::allocation_map_` (runtime.h:396-397): "Contains the
region, address, and size of previously allocated memory", keyed by the
base address of each live allocation. -/
abbrev AllocationMap := List (Nat × AllocationRegion)

/-- Lookup by key, mirroring `allocation_map_.find(ptr)`. -/
def mapFind : AllocationMap → Nat → Option AllocationRegion
  | [], _ => none
  | (a, r) :: rest, k => if a = k then some r else mapFind rest k

/-- Erase all entries with the given key, mirroring
`allocation_map_.erase(ptr)`. -/
def mapErase (m : AllocationMap) (k : Nat) : AllocationMap :=
  m.filter (fun e => !(e.1 == k))

/-- Keyed insertion, mirroring `allocation_map_[addr] = record` (the
`std::map` subscript assignment replaces any entry for the key). -/
def mapInsert (m : AllocationMap) (k : Nat) (v : AllocationRegion) : AllocationMap :=
  (k, v) :: mapErase m k

/-- The keys of the allocation map. -/
def keysOf (m : AllocationMap) : List Nat := m.map (fun e => e.1)

/-- Modelled from the spec: the body of the two-argument overload of
`Runtime::AllocateMemory` (runtime.h:134) is not under src/.  Spec 4.3:
"delegates to the region's allocator; on success, inserts an
AllocationRecord keyed by the returned address ...; fails with an
allocation error if the region rejects the size".  The region
allocator's verdict is the oracle argument `allocResult` (`none` = the
region rejected the request).  The result is the status, the address
written to the out parameter, and the new allocation map. -/
def AllocateMemory (region : MemoryRegion) (size : Nat) (allocResult : Option Nat)
    (m : AllocationMap) : hsa_status_t × Option Nat × AllocationMap :=
  match allocResult with
  | none => (.HSA_STATUS_ERROR, none, m)
  | some addr =>
      (.HSA_STATUS_SUCCESS, some addr,
        mapInsert m addr { region := region, assigned_agent_ := none, size := size })

/-- Modelled from the spec: the body of the restricted-access overload
of `Runtime::AllocateMemory` (runtime.h:147) is not under src/.  Spec
4.3 together with the data model (spec 3): the record's "optional single
owning agent (set when access is restricted)" is filled in from the
region's owner exactly when `restrict_access` is true. -/
def AllocateMemoryRestrict (restrict_access : Bool) (region : MemoryRegion)
    (size : Nat) (allocResult : Option Nat) (m : AllocationMap) :
    hsa_status_t × Option Nat × AllocationMap :=
  match allocResult with
  | none => (.HSA_STATUS_ERROR, none, m)
  | some addr =>
      (.HSA_STATUS_SUCCESS, some addr,
        mapInsert m addr
          { region := region,
            assigned_agent_ := if restrict_access then some region.owner else none,
            size := size })

/-- Modelled from the spec: the body of `Runtime::FreeMemory`
(runtime.h:157) is not under src/.  Spec 4.3: "looks up ptr in the
allocation map; if absent, fails (caller passed an address not owned by
this tracker, or a double-free) — this is reported, never treated as a
no-op.  On success, invokes the record's region deallocator and erases
the record." -/
def FreeMemory (m : AllocationMap) (ptr : Nat) : hsa_status_t × AllocationMap :=
  match mapFind m ptr with
  | none => (.HSA_STATUS_ERROR, m)
  | some _ => (.HSA_STATUS_SUCCESS, mapErase m ptr)

/-- The allocation-tracker calls an application may interleave.  A
successful `alloc` records the address chosen by the region allocator. -/
inductive MemOp where
  | alloc (region : MemoryRegion) (size : Nat) (allocResult : Option Nat)
  | free (ptr : Nat)
deriving DecidableEq, Repr

/-- Effect of one tracker call on the allocation map. -/
def memStep (m : AllocationMap) : MemOp → AllocationMap
  | .alloc region size allocResult => (AllocateMemory region size allocResult m).2.2
  | .free ptr => (FreeMemory m ptr).2

/-- Run a sequence of tracker calls on the allocation map. -/
def memRun (m : AllocationMap) (ops : List MemOp) : AllocationMap :=
  ops.foldl memStep m

/-- The specification-side notion of the currently-live addresses: an
address becomes live when the region allocator hands it out and stops
being live the moment it is freed. -/
def liveStep (live : List Nat) : MemOp → List Nat
  | .alloc _ _ none => live
  | .alloc _ _ (some p) => p :: live
  | .free p => live.erase p

/-- Run the specification-side live-address bookkeeping. -/
def liveRun (live : List Nat) (ops : List MemOp) : List Nat :=
  ops.foldl liveStep live

/-- Freshness of the allocator oracle along a run: a real region
allocator never returns an address that is still live (still tracked by
the map). -/
def freshRun (m : AllocationMap) : List MemOp → Bool
  | [] => true
  | op :: rest =>
      (match op with
       | .alloc _ _ (some p) => decide (mapFind m p = none)
       | _ => true) && freshRun (memStep m op) rest

/-- A concrete allocate/allocate/free exercise for the tracker. -/
def demoMemOps : List MemOp :=
  [.alloc { id := 0, owner := 0 } 8 (some 10),
   .alloc { id := 0, owner := 1 } 4 (some 20),
   .free 10]

/-! ## Agent registry and iteration (runtime.h:102-125) -/

/-- Modelled from the spec: the body of `Runtime::RegisterAgent`
(runtime.h:104) is not under src/.  Spec 4.2: "append to the respective
ordered collection; insertion order is preserved". -/
def RegisterAgent (agents : List Agent) (agent : Agent) : List Agent :=
  agents ++ [agent]

/-- Modelled from the spec: the body of `Runtime::IterateAgent`
(runtime.h:123) is not under src/.  Spec 4.2: "invokes a caller callback
for each agent until the callback signals failure, at which point
iteration stops and that failure is propagated; success requires every
agent to have been visited."  Returns the visited agents in invocation
order, paired with the propagated status. -/
def IterateAgentTrace (callback : Agent → hsa_status_t) :
    List Agent → List Agent × hsa_status_t
  | [] => ([], .HSA_STATUS_SUCCESS)
  | a :: rest =>
      if callback a = .HSA_STATUS_SUCCESS then
        (a :: (IterateAgentTrace callback rest).1, (IterateAgentTrace callback rest).2)
      else ([a], callback a)

/-- The status returned by `Runtime::IterateAgent`. -/
def IterateAgent (callback : Agent → hsa_status_t) (agents : List Agent) : hsa_status_t :=
  (IterateAgentTrace callback agents).2

/-- A concrete callback that rejects agent 1. -/
def demoCallback : Agent → hsa_status_t :=
  fun a => if a = 1 then .HSA_STATUS_INFO_BREAK else .HSA_STATUS_SUCCESS

/-! ## Queue identifiers (runtime.h:221-224, 417-418) -/

/-- Modelled from the spec: the body of `Runtime::GetQueueId`
(runtime.h:224) is not under src/.  "Query next available queue id",
"returns a process-wide monotonically increasing counter value".  The
backing counter `queue_count_` (runtime.h:418) is a `uint32_t`, so it
advances modulo 2^32.  The call returns the current counter and the
advanced counter. -/
def GetQueueId (queue_count : Nat) : Nat × Nat :=
  (queue_count % 2 ^ 32, (queue_count + 1) % 2 ^ 32)

/-- The counter after `n` calls in a session that starts at zero. -/
def queueState : Nat → Nat
  | 0 => 0
  | n + 1 => (GetQueueId (queueState n)).2

/-- The value returned by the call with index `n` (zero-based) within
one session. -/
def nthQueueId (n : Nat) : Nat := (GetQueueId (queueState n)).1

/-! ## `AsyncEvents` parallel vectors (runtime.h:293-311) -/

/-- `Runtime::AsyncEvents` (runtime.h:293-311): five parallel vectors
holding the components of each registration. -/
structure AsyncEvents where
  signal_ : List hsa_signal_t
  cond_ : List hsa_signal_condition_t
  value_ : List hsa_signal_value_t
  handler_ : List hsa_amd_signal_handler
  arg_ : List Nat
deriving DecidableEq, Repr

/-- Modelled from the spec: the body of `AsyncEvents::PushBack`
(runtime.h:294) is not under src/; it appends one complete registration
tuple, one component per vector. -/
def AsyncEvents.PushBack (e : AsyncEvents) (signal : hsa_signal_t)
    (cond : hsa_signal_condition_t) (value : hsa_signal_value_t)
    (handler : hsa_amd_signal_handler) (arg : Nat) : AsyncEvents :=
  { signal_ := e.signal_ ++ [signal],
    cond_ := e.cond_ ++ [cond],
    value_ := e.value_ ++ [value],
    handler_ := e.handler_ ++ [handler],
    arg_ := e.arg_ ++ [arg] }

/-- Modelled from the spec: the body of `AsyncEvents::PopBack`
(runtime.h:302) is not under src/; it drops the last element of each of
the five vectors. -/
def AsyncEvents.PopBack (e : AsyncEvents) : AsyncEvents :=
  { signal_ := e.signal_.dropLast,
    cond_ := e.cond_.dropLast,
    value_ := e.value_.dropLast,
    handler_ := e.handler_.dropLast,
    arg_ := e.arg_.dropLast }

/-- Modelled from the spec: the body of `AsyncEvents::CopyIndex`
(runtime.h:298) is not under src/; it copies the registration at index
`src` over the one at index `dst` in every vector. -/
def AsyncEvents.CopyIndex (e : AsyncEvents) (dst src : Nat) : AsyncEvents :=
  { signal_ := e.signal_.set dst (e.signal_.getD src 0),
    cond_ := e.cond_.set dst (e.cond_.getD src .HSA_SIGNAL_CONDITION_EQ),
    value_ := e.value_.set dst (e.value_.getD src 0),
    handler_ := e.handler_.set dst (e.handler_.getD src 0),
    arg_ := e.arg_.set dst (e.arg_.getD src 0) }

/-- Modelled from the spec: the body of `AsyncEvents::Clear`
(runtime.h:304) is not under src/; it empties all five vectors. -/
def AsyncEvents.Clear (_e : AsyncEvents) : AsyncEvents :=
  { signal_ := [], cond_ := [], value_ := [], handler_ := [], arg_ := [] }

/-- Modelled from the spec: the body of `AsyncEvents::Size`
(runtime.h:300) is not under src/; the number of registrations. -/
def AsyncEvents.Size (e : AsyncEvents) : Nat := e.signal_.length

/-- All five parallel vectors have the same length, so each index below
`Size` addresses one complete registration tuple. -/
abbrev AsyncEvents.EqLen (e : AsyncEvents) : Prop :=
  e.cond_.length = e.signal_.length ∧
  e.value_.length = e.signal_.length ∧
  e.handler_.length = e.signal_.length ∧
  e.arg_.length = e.signal_.length

/-! ## Async event monitor loop (runtime.h:226-240, 271, 283-291) -/

/-- One registration created by `Runtime::SetAsyncSignalHandler`
(runtime.h:237-240): the signal, the condition/threshold pair, and a
token identifying this particular registration (each call creates a
fresh registration object). -/
structure Registration where
  token : Nat
  signal : hsa_signal_t
  cond : hsa_signal_condition_t
  value : hsa_signal_value_t
deriving DecidableEq, Repr

/-- Evaluate a signal condition against an observed value and the
registration's threshold. -/
def condSatisfied (c : hsa_signal_condition_t)
    (observed threshold : hsa_signal_value_t) : Bool :=
  match c with
  | .HSA_SIGNAL_CONDITION_EQ => observed == threshold
  | .HSA_SIGNAL_CONDITION_NE => observed != threshold
  | .HSA_SIGNAL_CONDITION_LT => decide (observed < threshold)
  | .HSA_SIGNAL_CONDITION_GTE => decide (threshold ≤ observed)

/-- What one wait cycle of the monitor thread observes: the signal
values seen by the wait, the boolean each invoked callback returns
(keyed by registration token), and the registrations merged in from
`new_async_events_` (the pending buffer fed by `SetAsyncSignalHandler`)
at the start of the cycle. -/
structure CycleEnv where
  sigVal : hsa_signal_t → hsa_signal_value_t
  ret : Nat → Bool
  pending : List Registration

/-- Whether a registration's (condition, threshold) pair is satisfied by
the values this cycle observed. -/
def satisfied (env : CycleEnv) (r : Registration) : Bool :=
  condSatisfied r.cond (env.sigVal r.signal) r.value

/-- The wait set of a cycle: the active registrations after merging the
pending ones (spec 4.4 step 1). -/
def cycleMerged (env : CycleEnv) (active : List Registration) : List Registration :=
  active ++ env.pending

/-- Modelled from the spec: the body of `Runtime::AsyncEventsLoop`
(runtime.h:271) is not under src/.  Spec 4.4 step 3: "For every
satisfied registration (evaluated in registration order), invoke its
callback"; these are the registrations invoked during the cycle. -/
def cycleFired (env : CycleEnv) (active : List Registration) : List Registration :=
  (cycleMerged env active).filter (fun r => satisfied env r)

/-- Modelled from the spec: the registrations still active after the
cycle.  Spec 4.4 step 3: "The callback's return indicates whether to
keep monitoring that signal: true re-arms it for the next wait cycle,
false removes it from ActiveRegistrations"; unsatisfied registrations
stay. -/
def cycleKept (env : CycleEnv) (active : List Registration) : List Registration :=
  (cycleMerged env active).filter (fun r => !satisfied env r || env.ret r.token)

/-- The active registrations at the start of cycle `n`, beginning from
an empty active set. -/
def monitorActive (env : Nat → CycleEnv) : Nat → List Registration
  | 0 => []
  | n + 1 => cycleKept (env n) (monitorActive env n)

/-- The registrations whose callbacks are invoked during cycle `n`. -/
def monitorFired (env : Nat → CycleEnv) (n : Nat) : List Registration :=
  cycleFired (env n) (monitorActive env n)

/-- A concrete registration: token 0 watching signal 5 for value 0. -/
def demoReg : Registration :=
  { token := 0, signal := 5, cond := .HSA_SIGNAL_CONDITION_EQ, value := 0 }

/-- A concrete monitor environment: the registration arrives in cycle
0's pending buffer, every signal reads 0, and every callback declines to
continue. -/
def demoEnv : Nat → CycleEnv := fun n =>
  { sigVal := fun _ => 0,
    ret := fun _ => false,
    pending := if n = 0 then [demoReg] else [] }

/-! ## Asynchronous copy submission (runtime.h:168-189) -/

/-- State of one submitted asynchronous copy together with its
dependency signals: the (decrement-only) value of each signal, the
completion signal's value, and whether the copy has started or
completed. -/
structure CopyState where
  sigVal : Nat → Nat
  complVal : Int
  started : Bool
  completed : Bool

/-- Observable events around one submitted asynchronous copy. -/
inductive CopyEvent where
  | decSignal (s : Nat)
  | startCopy
  | completeCopy
deriving DecidableEq, Repr

/-- Modelled from the spec: the body of the asynchronous overload of
`Runtime::CopyMemory` (runtime.h:186-189) is not under src/.  Header
doc, runtime.h:170-172: "The memory copy will be performed after all
signals in dep_signals have value of 0.  On completion
completion_signal will be decremented."  A dependency signal may only be
decremented while non-zero; the copy may start only when every
dependency signal reads zero; completion happens at most once, after the
start, and decrements the completion signal. -/
def copyStep (deps : List Nat) (st : CopyState) : CopyEvent → Option CopyState
  | .decSignal s =>
      if st.sigVal s = 0 then none
      else some { st with sigVal := fun x => if x = s then st.sigVal s - 1 else st.sigVal x }
  | .startCopy =>
      if st.started then none
      else if deps.all (fun d => st.sigVal d == 0) then some { st with started := true }
      else none
  | .completeCopy =>
      if st.started && !st.completed then
        some { st with completed := true, complVal := st.complVal - 1 }
      else none

/-- Run a trace of events; `none` means the trace is not a possible
behaviour of the system. -/
def copyRun (deps : List Nat) (st : CopyState) : List CopyEvent → Option CopyState
  | [] => some st
  | e :: tr =>
      match copyStep deps st e with
      | none => none
      | some st1 => copyRun deps st1 tr

/-- A concrete submission: one dependency signal 7 starting at 2, a
completion signal at 5. -/
def demoCopyState : CopyState :=
  { sigVal := fun s => if s = 7 then 2 else 0,
    complVal := 5, started := false, completed := false }

/-- The events before the copy starts in the demo trace. -/
def demoCopyPre : List CopyEvent := [.decSignal 7, .decSignal 7]

/-! ## Lifecycle lemmas -/

lemma dyckFrom_acquire (c : Nat) (rest : List LifeOp) :
    dyckFrom c (LifeOp.acquire :: rest) = dyckFrom (c + 1) rest := rfl

lemma dyckFrom_release (c : Nat) (rest : List LifeOp) :
    dyckFrom c (LifeOp.release :: rest) = (decide (0 < c) && dyckFrom (c - 1) rest) := rfl

lemma dyckFrom_query (c : Nat) (rest : List LifeOp) :
    dyckFrom c (LifeOp.isOpenQuery :: rest) = dyckFrom c rest := rfl

/-- Along a well-nested suffix, running the lifecycle machine keeps the
open flag consistent with the reference count, moves the reference count
by the acquire/release difference, and conserves
`loads - unloads - openBit`. -/
lemma lifeRun_dyck (ops : List LifeOp) : ∀ t : LifeTrace,
    t.state.opened = decide (t.state.refCount ≠ 0) →
    dyckFrom t.state.refCount ops = true →
    (lifeRun t ops).state.refCount + ops.count LifeOp.release
        = t.state.refCount + ops.count LifeOp.acquire ∧
    (lifeRun t ops).state.opened = decide ((lifeRun t ops).state.refCount ≠ 0) ∧
    (lifeRun t ops).loads + t.unloads + openBit t.state
        = t.loads + (lifeRun t ops).unloads + openBit (lifeRun t ops).state := by
  induction ops with
  | nil => intro t hinv _; simp [lifeRun, hinv]
  | cons op rest ih =>
    intro t hinv hd
    have hrun : lifeRun t (op :: rest) = lifeRun (lifeStep t op) rest := rfl
    cases op with
    | acquire =>
      have ca : (LifeOp.acquire :: rest).count LifeOp.acquire
          = rest.count LifeOp.acquire + 1 := by simp
      have cr : (LifeOp.acquire :: rest).count LifeOp.release
          = rest.count LifeOp.release := by simp
      by_cases h0 : t.state.refCount = 0
      · have s1 : (lifeStep t LifeOp.acquire).state.refCount = 1 := by
          simp [lifeStep, Acquire, h0]
        have s2 : (lifeStep t LifeOp.acquire).state.opened = true := by
          simp [lifeStep, Acquire, h0]
        have s3 : (lifeStep t LifeOp.acquire).loads = t.loads + 1 := by
          simp [lifeStep, Acquire, h0]
        have s4 : (lifeStep t LifeOp.acquire).unloads = t.unloads := rfl
        have hinv1 : (lifeStep t LifeOp.acquire).state.opened
            = decide ((lifeStep t LifeOp.acquire).state.refCount ≠ 0) := by
          rw [s1, s2]; simp
        have hd1 : dyckFrom (lifeStep t LifeOp.acquire).state.refCount rest = true := by
          rw [s1]
          rw [dyckFrom_acquire, h0] at hd
          simpa using hd
        obtain ⟨e1, e2, e3⟩ := ih (lifeStep t LifeOp.acquire) hinv1 hd1
        rw [hrun, ca, cr]
        have ob0 : openBit t.state = 0 := by simp [openBit, h0]
        have ob1 : openBit (lifeStep t LifeOp.acquire).state = 1 := by
          simp [openBit, s1]
        exact ⟨by omega, e2, by omega⟩
      · have s1 : (lifeStep t LifeOp.acquire).state.refCount = t.state.refCount + 1 := by
          simp [lifeStep, Acquire, h0]
        have hop : t.state.opened = true := by rw [hinv]; simp [h0]
        have s2 : (lifeStep t LifeOp.acquire).state.opened = true := by
          simp [lifeStep, Acquire, h0, hop]
        have s3 : (lifeStep t LifeOp.acquire).loads = t.loads := by
          simp [lifeStep, Acquire, h0]
        have s4 : (lifeStep t LifeOp.acquire).unloads = t.unloads := rfl
        have hinv1 : (lifeStep t LifeOp.acquire).state.opened
            = decide ((lifeStep t LifeOp.acquire).state.refCount ≠ 0) := by
          rw [s1, s2]; simp
        have hd1 : dyckFrom (lifeStep t LifeOp.acquire).state.refCount rest = true := by
          rw [s1]
          rw [dyckFrom_acquire] at hd
          exact hd
        obtain ⟨e1, e2, e3⟩ := ih (lifeStep t LifeOp.acquire) hinv1 hd1
        rw [hrun, ca, cr]
        have ob0 : openBit t.state = 1 := by simp [openBit, h0]
        have ob1 : openBit (lifeStep t LifeOp.acquire).state = 1 := by
          simp [openBit, s1]
        exact ⟨by omega, e2, by omega⟩
    | release =>
      have ca : (LifeOp.release :: rest).count LifeOp.acquire
          = rest.count LifeOp.acquire := by simp
      have cr : (LifeOp.release :: rest).count LifeOp.release
          = rest.count LifeOp.release + 1 := by simp
      rw [dyckFrom_release, Bool.and_eq_true, decide_eq_true_eq] at hd
      obtain ⟨hpos, hdrest⟩ := hd
      have h0 : t.state.refCount ≠ 0 := by omega
      have hop : t.state.opened = true := by rw [hinv]; simp [h0]
      by_cases h1 : t.state.refCount = 1
      · have s1 : (lifeStep t LifeOp.release).state.refCount = 0 := by
          simp [lifeStep, Release, h1]
        have s2 : (lifeStep t LifeOp.release).state.opened = false := by
          simp [lifeStep, Release, h1]
        have s3 : (lifeStep t LifeOp.release).loads = t.loads := rfl
        have s4 : (lifeStep t LifeOp.release).unloads = t.unloads + 1 := by
          simp [lifeStep, Release, h1]
        have hinv1 : (lifeStep t LifeOp.release).state.opened
            = decide ((lifeStep t LifeOp.release).state.refCount ≠ 0) := by
          rw [s1, s2]; simp
        have hd1 : dyckFrom (lifeStep t LifeOp.release).state.refCount rest = true := by
          rw [s1]
          rw [h1] at hdrest
          simpa using hdrest
        obtain ⟨e1, e2, e3⟩ := ih (lifeStep t LifeOp.release) hinv1 hd1
        rw [hrun, ca, cr]
        have ob0 : openBit t.state = 1 := by simp [openBit, h0]
        have ob1 : openBit (lifeStep t LifeOp.release).state = 0 := by
          simp [openBit, s1]
        exact ⟨by omega, e2, by omega⟩
      · have s1 : (lifeStep t LifeOp.release).state.refCount = t.state.refCount - 1 := by
          simp [lifeStep, Release, h0, h1]
        have s2 : (lifeStep t LifeOp.release).state.opened = t.state.opened := by
          simp [lifeStep, Release, h0, h1]
        have s3 : (lifeStep t LifeOp.release).loads = t.loads := rfl
        have s4 : (lifeStep t LifeOp.release).unloads = t.unloads := by
          simp [lifeStep, Release, h0, h1]
        have hm1 : t.state.refCount - 1 ≠ 0 := by omega
        have hinv1 : (lifeStep t LifeOp.release).state.opened
            = decide ((lifeStep t LifeOp.release).state.refCount ≠ 0) := by
          rw [s1, s2, hop]; simp [hm1]
        have hd1 : dyckFrom (lifeStep t LifeOp.release).state.refCount rest = true := by
          rw [s1]
          exact hdrest
        obtain ⟨e1, e2, e3⟩ := ih (lifeStep t LifeOp.release) hinv1 hd1
        rw [hrun, ca, cr]
        have ob0 : openBit t.state = 1 := by simp [openBit, h0]
        have ob1 : openBit (lifeStep t LifeOp.release).state = 1 := by
          simp [openBit, s1, hm1]
        exact ⟨by omega, e2, by omega⟩
    | isOpenQuery =>
      have ca : (LifeOp.isOpenQuery :: rest).count LifeOp.acquire
          = rest.count LifeOp.acquire := by simp
      have cr : (LifeOp.isOpenQuery :: rest).count LifeOp.release
          = rest.count LifeOp.release := by simp
      rw [dyckFrom_query] at hd
      obtain ⟨e1, e2, e3⟩ := ih t hinv hd
      have hq : lifeStep t LifeOp.isOpenQuery = t := rfl
      rw [hrun, hq, ca, cr]
      exact ⟨e1, e2, e3⟩

/-- Running a block of nested Acquires from an open state just raises
the reference count; no `Load` or `Unload` happens. -/
lemma lifeRun_replicate_acquire (n : Nat) : ∀ t : LifeTrace,
    t.state.refCount ≠ 0 → t.state.opened = true →
    (lifeRun t (List.replicate n LifeOp.acquire)).state.refCount = t.state.refCount + n ∧
    (lifeRun t (List.replicate n LifeOp.acquire)).state.opened = true ∧
    (lifeRun t (List.replicate n LifeOp.acquire)).loads = t.loads ∧
    (lifeRun t (List.replicate n LifeOp.acquire)).unloads = t.unloads ∧
    (lifeRun t (List.replicate n LifeOp.acquire)).succReleases = t.succReleases := by
  induction n with
  | zero => intro t h1 h2; simp [lifeRun, h2]
  | succ n ih =>
    intro t h1 h2
    rw [List.replicate_succ]
    have hrun : lifeRun t (LifeOp.acquire :: List.replicate n LifeOp.acquire)
        = lifeRun (lifeStep t LifeOp.acquire) (List.replicate n LifeOp.acquire) := rfl
    have s1 : (lifeStep t LifeOp.acquire).state.refCount = t.state.refCount + 1 := by
      simp [lifeStep, Acquire, h1]
    have s2 : (lifeStep t LifeOp.acquire).state.opened = true := by
      simp [lifeStep, Acquire, h1, h2]
    have s3 : (lifeStep t LifeOp.acquire).loads = t.loads := by
      simp [lifeStep, Acquire, h1]
    have s4 : (lifeStep t LifeOp.acquire).unloads = t.unloads := rfl
    have s5 : (lifeStep t LifeOp.acquire).succReleases = t.succReleases := rfl
    obtain ⟨f1, f2, f3, f4, f5⟩ := ih (lifeStep t LifeOp.acquire)
      (by rw [s1]; omega) s2
    rw [hrun]
    refine ⟨?_, f2, ?_, ?_, ?_⟩
    · rw [f1, s1]; omega
    · rw [f3, s3]
    · rw [f4, s4]
    · rw [f5, s5]

/-- Running a block of non-final Releases from an open state just
lowers the reference count; no `Load` or `Unload` happens. -/
lemma lifeRun_replicate_release (n : Nat) : ∀ t : LifeTrace,
    n < t.state.refCount → t.state.opened = true →
    (lifeRun t (List.replicate n LifeOp.release)).state.refCount = t.state.refCount - n ∧
    (lifeRun t (List.replicate n LifeOp.release)).state.opened = true ∧
    (lifeRun t (List.replicate n LifeOp.release)).loads = t.loads ∧
    (lifeRun t (List.replicate n LifeOp.release)).unloads = t.unloads ∧
    (lifeRun t (List.replicate n LifeOp.release)).succReleases = t.succReleases + n := by
  induction n with
  | zero => intro t h1 h2; simp [lifeRun, h2]
  | succ n ih =>
    intro t h1 h2
    rw [List.replicate_succ]
    have hrun : lifeRun t (LifeOp.release :: List.replicate n LifeOp.release)
        = lifeRun (lifeStep t LifeOp.release) (List.replicate n LifeOp.release) := rfl
    have h0 : t.state.refCount ≠ 0 := by omega
    have hne1 : t.state.refCount ≠ 1 := by omega
    have s1 : (lifeStep t LifeOp.release).state.refCount = t.state.refCount - 1 := by
      simp [lifeStep, Release, h0, hne1]
    have s2 : (lifeStep t LifeOp.release).state.opened = true := by
      simp [lifeStep, Release, h0, hne1, h2]
    have s3 : (lifeStep t LifeOp.release).loads = t.loads := rfl
    have s4 : (lifeStep t LifeOp.release).unloads = t.unloads := by
      simp [lifeStep, Release, h0, hne1]
    have s5 : (lifeStep t LifeOp.release).succReleases = t.succReleases + 1 := by
      simp [lifeStep, Release, h0, hne1]
    obtain ⟨f1, f2, f3, f4, f5⟩ := ih (lifeStep t LifeOp.release)
      (by rw [s1]; omega) s2
    rw [hrun]
    refine ⟨?_, f2, ?_, ?_, ?_⟩
    · rw [f1, s1]; omega
    · rw [f3, s3]
    · rw [f4, s4]
    · rw [f5, s5]; omega

/-- The canonical nested pattern of N Acquires followed by N Releases
performs exactly one `Load` and exactly one `Unload`. -/
lemma lifeRun_block (m : Nat) :
    (lifeRun initTrace
        (List.replicate (m + 1) LifeOp.acquire ++ List.replicate (m + 1) LifeOp.release)).loads = 1 ∧
    (lifeRun initTrace
        (List.replicate (m + 1) LifeOp.acquire ++ List.replicate (m + 1) LifeOp.release)).unloads = 1 := by
  have hsplit : lifeRun initTrace
      (List.replicate (m + 1) LifeOp.acquire ++ List.replicate (m + 1) LifeOp.release)
      = lifeStep (lifeRun (lifeRun (lifeStep initTrace LifeOp.acquire)
            (List.replicate m LifeOp.acquire)) (List.replicate m LifeOp.release))
          LifeOp.release := by
    rw [List.replicate_succ, List.replicate_succ']
    simp [lifeRun, List.foldl_append]
  have e0 : lifeStep initTrace LifeOp.acquire
      = { state := { refCount := 1, opened := true },
          loads := 1, unloads := 0, succReleases := 0 } := by
    simp [lifeStep, Acquire, initTrace, initState]
  have i1 : (lifeStep initTrace LifeOp.acquire).state.refCount = 1 := by rw [e0]
  have i2 : (lifeStep initTrace LifeOp.acquire).state.opened = true := by rw [e0]
  have i3 : (lifeStep initTrace LifeOp.acquire).loads = 1 := by rw [e0]
  have i4 : (lifeStep initTrace LifeOp.acquire).unloads = 0 := by rw [e0]
  obtain ⟨a1, a2, a3, a4, a5⟩ := lifeRun_replicate_acquire m (lifeStep initTrace LifeOp.acquire)
    (by rw [i1]; omega) i2
  obtain ⟨b1, b2, b3, b4, b5⟩ := lifeRun_replicate_release m
    (lifeRun (lifeStep initTrace LifeOp.acquire) (List.replicate m LifeOp.acquire))
    (by rw [a1, i1]; omega) a2
  have hb1 : (lifeRun (lifeRun (lifeStep initTrace LifeOp.acquire)
      (List.replicate m LifeOp.acquire)) (List.replicate m LifeOp.release)).state.refCount = 1 := by
    rw [b1, a1, i1]; omega
  have hrel2 : (Release (lifeRun (lifeRun (lifeStep initTrace LifeOp.acquire)
      (List.replicate m LifeOp.acquire)) (List.replicate m LifeOp.release)).state).2.2 = true := by
    simp [Release, hb1]
  have hl : (lifeStep (lifeRun (lifeRun (lifeStep initTrace LifeOp.acquire)
      (List.replicate m LifeOp.acquire)) (List.replicate m LifeOp.release)) LifeOp.release).loads
      = (lifeRun (lifeRun (lifeStep initTrace LifeOp.acquire)
        (List.replicate m LifeOp.acquire)) (List.replicate m LifeOp.release)).loads := rfl
  have hu : (lifeStep (lifeRun (lifeRun (lifeStep initTrace LifeOp.acquire)
      (List.replicate m LifeOp.acquire)) (List.replicate m LifeOp.release)) LifeOp.release).unloads
      = (lifeRun (lifeRun (lifeStep initTrace LifeOp.acquire)
        (List.replicate m LifeOp.acquire)) (List.replicate m LifeOp.release)).unloads + 1 := by
    show _ + (if (Release _).2.2 then 1 else 0) = _ + 1
    rw [hrel2]
    simp
  rw [hsplit]
  constructor
  · rw [hl, b3, a3, i3]
  · rw [hu, b4, a4, i4]

/-- Without any well-nestedness assumption, the open flag stays
consistent with the reference count, and the reference count plus the
number of successful releases equals the number of acquires (counted
from the given start). -/
lemma lifeRun_count (ops : List LifeOp) : ∀ t : LifeTrace,
    t.state.opened = decide (t.state.refCount ≠ 0) →
    (lifeRun t ops).state.refCount + (lifeRun t ops).succReleases
        = t.state.refCount + t.succReleases + ops.count LifeOp.acquire ∧
    (lifeRun t ops).state.opened = decide ((lifeRun t ops).state.refCount ≠ 0) := by
  induction ops with
  | nil => intro t hinv; simp [lifeRun, hinv]
  | cons op rest ih =>
    intro t hinv
    have hrun : lifeRun t (op :: rest) = lifeRun (lifeStep t op) rest := rfl
    cases op with
    | acquire =>
      have ca : (LifeOp.acquire :: rest).count LifeOp.acquire
          = rest.count LifeOp.acquire + 1 := by simp
      by_cases h0 : t.state.refCount = 0
      · have s1 : (lifeStep t LifeOp.acquire).state.refCount = 1 := by
          simp [lifeStep, Acquire, h0]
        have s2 : (lifeStep t LifeOp.acquire).state.opened = true := by
          simp [lifeStep, Acquire, h0]
        have s5 : (lifeStep t LifeOp.acquire).succReleases = t.succReleases := rfl
        obtain ⟨e1, e2⟩ := ih (lifeStep t LifeOp.acquire) (by rw [s1, s2]; simp)
        rw [hrun, ca]
        exact ⟨by omega, e2⟩
      · have s1 : (lifeStep t LifeOp.acquire).state.refCount = t.state.refCount + 1 := by
          simp [lifeStep, Acquire, h0]
        have hop : t.state.opened = true := by rw [hinv]; simp [h0]
        have s2 : (lifeStep t LifeOp.acquire).state.opened = true := by
          simp [lifeStep, Acquire, h0, hop]
        have s5 : (lifeStep t LifeOp.acquire).succReleases = t.succReleases := rfl
        obtain ⟨e1, e2⟩ := ih (lifeStep t LifeOp.acquire) (by rw [s1, s2]; simp)
        rw [hrun, ca]
        exact ⟨by omega, e2⟩
    | release =>
      have ca : (LifeOp.release :: rest).count LifeOp.acquire
          = rest.count LifeOp.acquire := by simp
      by_cases h0 : t.state.refCount = 0
      · have hstep : lifeStep t LifeOp.release = t := by
          simp [lifeStep, Release, h0]
        obtain ⟨e1, e2⟩ := ih t hinv
        rw [hrun, hstep, ca]
        exact ⟨e1, e2⟩
      · by_cases h1 : t.state.refCount = 1
        · have s1 : (lifeStep t LifeOp.release).state.refCount = 0 := by
            simp [lifeStep, Release, h1]
          have s2 : (lifeStep t LifeOp.release).state.opened = false := by
            simp [lifeStep, Release, h1]
          have s5 : (lifeStep t LifeOp.release).succReleases = t.succReleases + 1 := by
            simp [lifeStep, Release, h1]
          obtain ⟨e1, e2⟩ := ih (lifeStep t LifeOp.release) (by rw [s1, s2]; simp)
          rw [hrun, ca]
          exact ⟨by omega, e2⟩
        · have s1 : (lifeStep t LifeOp.release).state.refCount = t.state.refCount - 1 := by
            simp [lifeStep, Release, h0, h1]
          have hop : t.state.opened = true := by rw [hinv]; simp [h0]
          have hm1 : t.state.refCount - 1 ≠ 0 := by omega
          have s2 : (lifeStep t LifeOp.release).state.opened = true := by
            simp [lifeStep, Release, h0, h1, hop]
          have s5 : (lifeStep t LifeOp.release).succReleases = t.succReleases + 1 := by
            simp [lifeStep, Release, h0, h1]
          obtain ⟨e1, e2⟩ := ih (lifeStep t LifeOp.release) (by rw [s1, s2]; simp [hm1])
          rw [hrun, ca]
          exact ⟨by omega, e2⟩
    | isOpenQuery =>
      have ca : (LifeOp.isOpenQuery :: rest).count LifeOp.acquire
          = rest.count LifeOp.acquire := by simp
      obtain ⟨e1, e2⟩ := ih t hinv
      have hq : lifeStep t LifeOp.isOpenQuery = t := rfl
      rw [hrun, hq, ca]
      exact ⟨e1, e2⟩

/-- Claim C1 (amended): for any balanced well-nested sequence of
Acquire and Release calls (every prefix has at least as many Acquires
as Releases, totals equal) the driver session is opened exactly as many
times as it is closed — each open performed by an Acquire whose
pre-increment ref_count was 0 (running `Load`) and each close by the
Release that brings ref_count back to 0 (running `Unload`) — and the
final state equals the initial Closed state; in the canonical nested
pattern of N Acquires followed by N Releases (N ≥ 1) the session is
opened exactly once and closed exactly once; and a Release called when
ref_count is already 0 returns false and performs no teardown. -/
theorem c1_balanced_lifecycle :
    (∀ ops : List LifeOp, dyckFrom 0 ops = true →
        ops.count LifeOp.acquire = ops.count LifeOp.release →
        (lifeRun initTrace ops).state = initState ∧
        (lifeRun initTrace ops).loads = (lifeRun initTrace ops).unloads) ∧
    (∀ n : Nat, 0 < n →
        (lifeRun initTrace
          (List.replicate n LifeOp.acquire ++ List.replicate n LifeOp.release)).loads = 1 ∧
        (lifeRun initTrace
          (List.replicate n LifeOp.acquire ++ List.replicate n LifeOp.release)).unloads = 1) ∧
    (∀ s : RState, s.refCount = 0 → Release s = (s, false, false)) := by
  refine ⟨?_, ?_, ?_⟩
  · intro ops hdyck hcount
    have hinv0 : initTrace.state.opened = decide (initTrace.state.refCount ≠ 0) := by
      simp [initTrace, initState]
    have hd0 : dyckFrom initTrace.state.refCount ops = true := by
      simpa [initTrace, initState] using hdyck
    obtain ⟨e1, e2, e3⟩ := lifeRun_dyck ops initTrace hinv0 hd0
    have hi1 : initTrace.state.refCount = 0 := rfl
    have hrc : (lifeRun initTrace ops).state.refCount = 0 := by omega
    have hop : (lifeRun initTrace ops).state.opened = false := by
      rw [e2, hrc]; simp
    constructor
    · have heta : (lifeRun initTrace ops).state
          = { refCount := (lifeRun initTrace ops).state.refCount,
              opened := (lifeRun initTrace ops).state.opened } := rfl
      rw [heta, hrc, hop]
      rfl
    · have hobi : openBit initTrace.state = 0 := by simp [openBit, initTrace, initState]
      have hobf : openBit (lifeRun initTrace ops).state = 0 := by simp [openBit, hrc]
      have hil : initTrace.loads = 0 := rfl
      have hiu : initTrace.unloads = 0 := rfl
      omega
  · intro n hn
    obtain ⟨m, rfl⟩ : ∃ m, n = m + 1 := ⟨n - 1, by omega⟩
    exact lifeRun_block m
  · intro s hs
    simp [Release, hs]

/-- The claim C1 is false as literally stated: the balanced well-nested
sequence Acquire, Release, Acquire, Release opens (and closes) the
driver session twice, not exactly once. -/
theorem c1_counterexample :
    ([LifeOp.acquire, LifeOp.release, LifeOp.acquire, LifeOp.release].count LifeOp.acquire
      = [LifeOp.acquire, LifeOp.release, LifeOp.acquire, LifeOp.release].count LifeOp.release) ∧
    dyckFrom 0 [LifeOp.acquire, LifeOp.release, LifeOp.acquire, LifeOp.release] = true ∧
    (lifeRun initTrace [LifeOp.acquire, LifeOp.release, LifeOp.acquire, LifeOp.release]).loads = 2 ∧
    (lifeRun initTrace [LifeOp.acquire, LifeOp.release, LifeOp.acquire, LifeOp.release]).unloads = 2 ∧
    ¬ (lifeRun initTrace [LifeOp.acquire, LifeOp.release, LifeOp.acquire, LifeOp.release]).loads = 1 := by
  decide

/-- Witness for C1 at the concrete sequence A, A, R, R. -/
theorem c1_witness :
    (lifeRun initTrace [LifeOp.acquire, LifeOp.acquire, LifeOp.release, LifeOp.release]).state
        = initState ∧
    (lifeRun initTrace [LifeOp.acquire, LifeOp.acquire, LifeOp.release, LifeOp.release]).loads
        = (lifeRun initTrace [LifeOp.acquire, LifeOp.acquire, LifeOp.release, LifeOp.release]).unloads :=
  c1_balanced_lifecycle.1 [LifeOp.acquire, LifeOp.acquire, LifeOp.release, LifeOp.release]
    (by decide) (by decide)

/-- Claim C10: `IsOpen` is a pure observer — inserting an `IsOpen` call
anywhere in a lifecycle call sequence leaves the entire run unchanged —
and it returns true exactly when the connection is open, i.e. when the
number of successful Acquire calls so far exceeds the number of
successful (matching) Release calls. -/
theorem c10_isopen_pure_observer :
    (∀ (t : LifeTrace) (l1 l2 : List LifeOp),
        lifeRun t (l1 ++ LifeOp.isOpenQuery :: l2) = lifeRun t (l1 ++ l2)) ∧
    (∀ ops : List LifeOp,
        (IsOpen (lifeRun initTrace ops).state = true ↔
          (lifeRun initTrace ops).succReleases < ops.count LifeOp.acquire)) ∧
    (∀ ops : List LifeOp,
        IsOpen (lifeRun initTrace ops).state = (lifeRun initTrace ops).state.opened) := by
  refine ⟨?_, ?_, ?_⟩
  · intro t l1 l2
    show List.foldl lifeStep t (l1 ++ LifeOp.isOpenQuery :: l2)
        = List.foldl lifeStep t (l1 ++ l2)
    rw [List.foldl_append, List.foldl_append, List.foldl_cons]
    rfl
  · intro ops
    have hinv0 : initTrace.state.opened = decide (initTrace.state.refCount ≠ 0) := by
      simp [initTrace, initState]
    obtain ⟨e1, e2⟩ := lifeRun_count ops initTrace hinv0
    have hi1 : initTrace.state.refCount = 0 := rfl
    have hi2 : initTrace.succReleases = 0 := rfl
    show decide ((lifeRun initTrace ops).state.refCount ≠ 0) = true ↔ _
    rw [decide_eq_true_iff]
    omega
  · intro ops
    have hinv0 : initTrace.state.opened = decide (initTrace.state.refCount ≠ 0) := by
      simp [initTrace, initState]
    obtain ⟨e1, e2⟩ := lifeRun_count ops initTrace hinv0
    show decide ((lifeRun initTrace ops).state.refCount ≠ 0)
        = (lifeRun initTrace ops).state.opened
    exact e2.symm

/-! ## Allocation-tracker lemmas -/

lemma mapFind_mapInsert_self (m : AllocationMap) (k : Nat) (v : AllocationRegion) :
    mapFind (mapInsert m k v) k = some v := by
  simp [mapInsert, mapFind]

lemma mapFind_mapErase_self (m : AllocationMap) (k : Nat) :
    mapFind (mapErase m k) k = none := by
  induction m with
  | nil => rfl
  | cons e rest ih =>
    obtain ⟨a, r⟩ := e
    by_cases h : a = k
    · simpa [mapErase, List.filter_cons, h] using ih
    · simpa [mapErase, List.filter_cons, h, mapFind] using ih

lemma mapFind_eq_none_iff (m : AllocationMap) (p : Nat) :
    mapFind m p = none ↔ p ∉ keysOf m := by
  induction m with
  | nil => simp [mapFind, keysOf]
  | cons e rest ih =>
    obtain ⟨a, r⟩ := e
    by_cases h : a = p
    · subst h
      simp [mapFind, keysOf]
    · have hne : ¬ p = a := fun hpa => h hpa.symm
      simp [mapFind, keysOf, h, hne, ih]

lemma mapErase_of_not_mem (m : AllocationMap) (p : Nat) :
    p ∉ keysOf m → mapErase m p = m := by
  induction m with
  | nil => intro _; rfl
  | cons e rest ih =>
    intro h
    obtain ⟨a, r⟩ := e
    have h1 : ¬ a = p := by
      intro hap
      apply h
      simp [keysOf, hap]
    have h2 : p ∉ keysOf rest := by
      intro hp
      apply h
      simp [keysOf] at hp ⊢
      exact Or.inr hp
    have h3 : rest.filter (fun e => !(e.1 == p)) = rest := ih h2
    show ((a, r) :: rest).filter (fun e => !(e.1 == p)) = (a, r) :: rest
    rw [List.filter_cons, h3]
    simp [h1]

lemma keysOf_mapErase (m : AllocationMap) (p : Nat) :
    keysOf (mapErase m p) = (keysOf m).filter (fun a => !(a == p)) := by
  induction m with
  | nil => rfl
  | cons e rest ih =>
    obtain ⟨a, r⟩ := e
    by_cases h : a = p
    · show keysOf (((a, r) :: rest).filter (fun e => !(e.1 == p)))
          = (a :: keysOf rest).filter (fun x => !(x == p))
      rw [List.filter_cons, List.filter_cons]
      simp [h]
      exact ih
    · show keysOf (((a, r) :: rest).filter (fun e => !(e.1 == p)))
          = (a :: keysOf rest).filter (fun x => !(x == p))
      rw [List.filter_cons, List.filter_cons]
      simp [h, keysOf]
      have := ih
      simp [keysOf] at this
      exact this

/-- Claim C2: for every region and size for which `AllocateMemory`
succeeds returning address p, a first `FreeMemory p` succeeds and
removes p's tracking record, a second `FreeMemory` on the same address
fails with an error, and `FreeMemory` on any address that is not
tracked fails with an error rather than being a no-op. -/
theorem c2_free_after_allocate :
    (∀ (m : AllocationMap) (region : MemoryRegion) (size : Nat)
        (allocResult : Option Nat) (p : Nat),
        (AllocateMemory region size allocResult m).2.1 = some p →
        (FreeMemory ((AllocateMemory region size allocResult m).2.2) p).1
            = hsa_status_t.HSA_STATUS_SUCCESS ∧
        mapFind ((FreeMemory ((AllocateMemory region size allocResult m).2.2) p).2) p
            = none ∧
        (FreeMemory ((FreeMemory ((AllocateMemory region size allocResult m).2.2) p).2) p).1
            = hsa_status_t.HSA_STATUS_ERROR) ∧
    (∀ (m : AllocationMap) (q : Nat),
        mapFind m q = none →
        FreeMemory m q = (hsa_status_t.HSA_STATUS_ERROR, m)) := by
  constructor
  · intro m region size allocResult p h
    cases allocResult with
    | none => simp [AllocateMemory] at h
    | some addr =>
      have haddr : addr = p := by simpa [AllocateMemory] using h
      subst haddr
      have hins : (AllocateMemory region size (some addr) m).2.2
          = mapInsert m addr { region := region, assigned_agent_ := none, size := size } := rfl
      rw [hins]
      have hfind := mapFind_mapInsert_self m addr
        { region := region, assigned_agent_ := none, size := size }
      have hfree1 : FreeMemory
          (mapInsert m addr { region := region, assigned_agent_ := none, size := size }) addr
          = (hsa_status_t.HSA_STATUS_SUCCESS,
             mapErase (mapInsert m addr { region := region, assigned_agent_ := none, size := size }) addr) := by
        simp [FreeMemory, hfind]
      rw [hfree1]
      have herase := mapFind_mapErase_self
        (mapInsert m addr { region := region, assigned_agent_ := none, size := size }) addr
      refine ⟨rfl, herase, ?_⟩
      simp [FreeMemory, herase]
  · intro m q h
    simp [FreeMemory, h]

/-- Witness for C2 at the empty map, region {0,0}, size 16, allocator
address 100. -/
theorem c2_witness :
    (FreeMemory ((AllocateMemory { id := 0, owner := 0 } 16 (some 100) []).2.2) 100).1
        = hsa_status_t.HSA_STATUS_SUCCESS ∧
    mapFind ((FreeMemory ((AllocateMemory { id := 0, owner := 0 } 16 (some 100) []).2.2) 100).2) 100
        = none ∧
    (FreeMemory ((FreeMemory ((AllocateMemory { id := 0, owner := 0 } 16 (some 100) []).2.2) 100).2) 100).1
        = hsa_status_t.HSA_STATUS_ERROR :=
  c2_free_after_allocate.1 [] { id := 0, owner := 0 } 16 (some 100) 100 rfl

/-- Claim C7: the two-argument form of `AllocateMemory` returns the same
status and address and produces the same allocation map as the
restricted-access overload called with `restrict_access = false` and the
same remaining arguments. -/
theorem c7_two_arg_overload_equiv :
    ∀ (region : MemoryRegion) (size : Nat) (allocResult : Option Nat)
      (m : AllocationMap),
      AllocateMemory region size allocResult m
        = AllocateMemoryRestrict false region size allocResult m := by
  intro region size allocResult m
  cases allocResult with
  | none => rfl
  | some addr => rfl

/-- Key invariant of the allocation tracker: with a fresh allocator
oracle, the keys of the allocation map follow exactly the
specification-side live-address bookkeeping, without duplicates. -/
lemma memRun_keys (ops : List MemOp) : ∀ (m : AllocationMap) (live : List Nat),
    keysOf m = live → live.Nodup → freshRun m ops = true →
    keysOf (memRun m ops) = liveRun live ops ∧ (liveRun live ops).Nodup := by
  induction ops with
  | nil =>
    intro m live hk hn _
    exact ⟨hk, hn⟩
  | cons op rest ih =>
    intro m live hk hn hf
    have hrunm : memRun m (op :: rest) = memRun (memStep m op) rest := rfl
    have hrunl : liveRun live (op :: rest) = liveRun (liveStep live op) rest := rfl
    rw [hrunm, hrunl]
    cases op with
    | alloc region size allocResult =>
      cases allocResult with
      | none =>
        have hstep : memStep m (MemOp.alloc region size none) = m := rfl
        have hlive : liveStep live (MemOp.alloc region size none) = live := rfl
        have hf1 : freshRun (memStep m (MemOp.alloc region size none)) rest = true := by
          simpa [freshRun] using hf
        rw [hstep, hlive]
        rw [hstep] at hf1
        exact ih m live hk hn hf1
      | some p =>
        have hfs : mapFind m p = none ∧
            freshRun (memStep m (MemOp.alloc region size (some p))) rest = true := by
          simpa [freshRun] using hf
        obtain ⟨hfind, hf1⟩ := hfs
        have hpk : p ∉ keysOf m := (mapFind_eq_none_iff m p).mp hfind
        have hstep : memStep m (MemOp.alloc region size (some p))
            = (p, { region := region, assigned_agent_ := none, size := size }) :: m := by
          show mapInsert m p { region := region, assigned_agent_ := none, size := size } = _
          rw [mapInsert, mapErase_of_not_mem m p hpk]
        have hlive : liveStep live (MemOp.alloc region size (some p)) = p :: live := rfl
        have hk1 : keysOf ((p, { region := region, assigned_agent_ := none, size := size }) :: m)
            = p :: live := by
          have hcons : keysOf ((p, ({ region := region, assigned_agent_ := none, size := size } : AllocationRegion)) :: m)
              = p :: keysOf m := rfl
          rw [hcons, hk]
        have hn1 : (p :: live).Nodup := by
          refine List.nodup_cons.mpr ⟨?_, hn⟩
          rw [← hk]
          exact hpk
        rw [hstep] at hf1
        rw [hstep, hlive]
        exact ih _ _ hk1 hn1 hf1
    | free p =>
      cases hfind : mapFind m p with
      | none =>
        have hstep : memStep m (MemOp.free p) = m := by
          show (FreeMemory m p).2 = m
          simp [FreeMemory, hfind]
        have hpk : p ∉ keysOf m := (mapFind_eq_none_iff m p).mp hfind
        have hpl : p ∉ live := by rw [← hk]; exact hpk
        have hlive : liveStep live (MemOp.free p) = live := by
          show live.erase p = live
          exact List.erase_of_not_mem hpl
        have hf1 : freshRun (memStep m (MemOp.free p)) rest = true := by
          simpa [freshRun] using hf
        rw [hstep] at hf1
        rw [hstep, hlive]
        exact ih m live hk hn hf1
      | some record =>
        have hstep : memStep m (MemOp.free p) = mapErase m p := by
          show (FreeMemory m p).2 = mapErase m p
          simp [FreeMemory, hfind]
        have hk1 : keysOf (mapErase m p) = live.erase p := by
          rw [keysOf_mapErase, hk]
          rw [List.Nodup.erase_eq_filter hn]
          apply List.filter_congr
          intro x _
          rfl
        have hn1 : (live.erase p).Nodup := hn.erase p
        have hlive : liveStep live (MemOp.free p) = live.erase p := rfl
        have hf1 : freshRun (memStep m (MemOp.free p)) rest = true := by
          simpa [freshRun] using hf
        rw [hstep] at hf1
        rw [hstep, hlive]
        exact ih _ _ hk1 hn1 hf1

/-- Claim C3: after every sequence of `AllocateMemory`/`FreeMemory`
operations (with the region allocator never handing out an address that
is still live), the keys of the allocation map are exactly the
currently-live allocated addresses, and the map never holds two records
for the same key. -/
theorem c3_allocation_map_exact :
    ∀ ops : List MemOp, freshRun [] ops = true →
      keysOf (memRun [] ops) = liveRun [] ops ∧
      (keysOf (memRun [] ops)).Nodup := by
  intro ops hf
  obtain ⟨h1, h2⟩ := memRun_keys ops [] [] rfl List.nodup_nil hf
  exact ⟨h1, h1 ▸ h2⟩

/-- Witness for C3 at a concrete allocate/allocate/free sequence. -/
theorem c3_witness :
    keysOf (memRun [] demoMemOps) = liveRun [] demoMemOps ∧
    (keysOf (memRun [] demoMemOps)).Nodup :=
  c3_allocation_map_exact demoMemOps (by decide)

/-! ## Agent iteration lemmas -/

lemma iterTrace_take (cb : Agent → hsa_status_t) : ∀ agents : List Agent,
    (IterateAgentTrace cb agents).1
      = agents.take (IterateAgentTrace cb agents).1.length := by
  intro agents
  induction agents with
  | nil => simp [IterateAgentTrace]
  | cons a rest ih =>
    by_cases h : cb a = hsa_status_t.HSA_STATUS_SUCCESS
    · simp only [IterateAgentTrace, if_pos h]
      simp only [List.length_cons, List.take_succ_cons]
      rw [← ih]
    · simp [IterateAgentTrace, if_neg h]

lemma iter_success_iff (cb : Agent → hsa_status_t) : ∀ agents : List Agent,
    IterateAgent cb agents = hsa_status_t.HSA_STATUS_SUCCESS ↔
      ∀ a ∈ agents, cb a = hsa_status_t.HSA_STATUS_SUCCESS := by
  intro agents
  induction agents with
  | nil => simp [IterateAgent, IterateAgentTrace]
  | cons a rest ih =>
    by_cases h : cb a = hsa_status_t.HSA_STATUS_SUCCESS
    · simp only [IterateAgent, IterateAgentTrace, if_pos h] at ih ⊢
      simp [h, ih]
    · simp only [IterateAgent, IterateAgentTrace, if_neg h]
      simp [h]

lemma iter_success_visited (cb : Agent → hsa_status_t) : ∀ agents : List Agent,
    IterateAgent cb agents = hsa_status_t.HSA_STATUS_SUCCESS →
      (IterateAgentTrace cb agents).1 = agents := by
  intro agents
  induction agents with
  | nil => intro _; rfl
  | cons a rest ih =>
    intro h
    by_cases hcb : cb a = hsa_status_t.HSA_STATUS_SUCCESS
    · have h2 : IterateAgent cb rest = hsa_status_t.HSA_STATUS_SUCCESS := by
        simpa [IterateAgent, IterateAgentTrace, if_pos hcb] using h
      simp only [IterateAgentTrace, if_pos hcb]
      rw [ih h2]
    · exact absurd (by simpa [IterateAgent, IterateAgentTrace, if_neg hcb] using h) hcb

lemma iter_fail_last (cb : Agent → hsa_status_t) : ∀ agents : List Agent,
    IterateAgent cb agents ≠ hsa_status_t.HSA_STATUS_SUCCESS →
      ∃ l, (IterateAgentTrace cb agents).1.getLast? = some l ∧
        cb l = IterateAgent cb agents ∧
        ∀ a ∈ (IterateAgentTrace cb agents).1.dropLast,
          cb a = hsa_status_t.HSA_STATUS_SUCCESS := by
  intro agents
  induction agents with
  | nil => intro h; exact absurd rfl h
  | cons a rest ih =>
    intro h
    by_cases hcb : cb a = hsa_status_t.HSA_STATUS_SUCCESS
    · have h2 : IterateAgent cb rest ≠ hsa_status_t.HSA_STATUS_SUCCESS := by
        simpa [IterateAgent, IterateAgentTrace, if_pos hcb] using h
      obtain ⟨l, hl1, hl2, hl3⟩ := ih h2
      have hne : (IterateAgentTrace cb rest).1 ≠ [] := by
        intro hnil
        rw [hnil] at hl1
        simp at hl1
      obtain ⟨b, v, hbv⟩ := List.exists_cons_of_ne_nil hne
      refine ⟨l, ?_, ?_, ?_⟩
      · simp only [IterateAgentTrace, if_pos hcb]
        rw [hbv] at hl1 ⊢
        rw [List.getLast?_cons_cons]
        exact hl1
      · have hst : IterateAgent cb (a :: rest) = IterateAgent cb rest := by
          simp [IterateAgent, IterateAgentTrace, if_pos hcb]
        rw [hst]
        exact hl2
      · simp only [IterateAgentTrace, if_pos hcb]
        rw [hbv] at hl3 ⊢
        intro x hx
        rw [List.dropLast_cons₂] at hx
        rcases List.mem_cons.mp hx with hxa | hxv
        · rw [hxa]; exact hcb
        · exact hl3 x hxv
    · refine ⟨a, ?_, ?_, ?_⟩
      · simp [IterateAgentTrace, if_neg hcb]
      · simp [IterateAgent, IterateAgentTrace, if_neg hcb]
      · simp [IterateAgentTrace, if_neg hcb]

lemma foldl_RegisterAgent : ∀ (agents init : List Agent),
    List.foldl RegisterAgent init agents = init ++ agents := by
  intro agents
  induction agents with
  | nil => intro init; simp
  | cons a rest ih =>
    intro init
    rw [List.foldl_cons, ih]
    simp [RegisterAgent]

/-- Claim C6: `IterateAgent` invokes the callback on the registered
agents in insertion order (the visited agents are always an initial
segment of the registry, in order, and `RegisterAgent` appends); it
stops at the first callback that returns a non-success status and
returns that status (every earlier callback returned success); and it
returns success exactly when the callback returns success for every
agent in the registry (in which case every agent was visited). -/
theorem c6_iterate_agent :
    (∀ (cb : Agent → hsa_status_t) (agents : List Agent),
        (IterateAgentTrace cb agents).1
          = agents.take (IterateAgentTrace cb agents).1.length) ∧
    (∀ (cb : Agent → hsa_status_t) (agents : List Agent),
        IterateAgent cb agents = hsa_status_t.HSA_STATUS_SUCCESS ↔
          ∀ a ∈ agents, cb a = hsa_status_t.HSA_STATUS_SUCCESS) ∧
    (∀ (cb : Agent → hsa_status_t) (agents : List Agent),
        IterateAgent cb agents = hsa_status_t.HSA_STATUS_SUCCESS →
          (IterateAgentTrace cb agents).1 = agents) ∧
    (∀ (cb : Agent → hsa_status_t) (agents : List Agent),
        IterateAgent cb agents ≠ hsa_status_t.HSA_STATUS_SUCCESS →
          ∃ l, (IterateAgentTrace cb agents).1.getLast? = some l ∧
            cb l = IterateAgent cb agents ∧
            ∀ a ∈ (IterateAgentTrace cb agents).1.dropLast,
              cb a = hsa_status_t.HSA_STATUS_SUCCESS) ∧
    (∀ agents : List Agent, List.foldl RegisterAgent [] agents = agents) :=
  ⟨iterTrace_take, iter_success_iff, iter_success_visited, iter_fail_last,
   fun agents => foldl_RegisterAgent agents []⟩

/-- Witness for C6: agents [0, 1, 2] with a callback rejecting agent 1
stop at agent 1 and propagate its status. -/
theorem c6_witness :
    ∃ l, (IterateAgentTrace demoCallback [0, 1, 2]).1.getLast? = some l ∧
      demoCallback l = IterateAgent demoCallback [0, 1, 2] ∧
      ∀ a ∈ (IterateAgentTrace demoCallback [0, 1, 2]).1.dropLast,
        demoCallback a = hsa_status_t.HSA_STATUS_SUCCESS :=
  c6_iterate_agent.2.2.2.1 demoCallback [0, 1, 2] (by decide)

/-! ## Queue-id lemmas -/

lemma queueState_eq (n : Nat) : queueState n = n % 2 ^ 32 := by
  induction n with
  | zero => rfl
  | succ n ih =>
    show (queueState n + 1) % 2 ^ 32 = (n + 1) % 2 ^ 32
    rw [ih, Nat.add_mod n 1]
    norm_num

lemma nthQueueId_eq (n : Nat) : nthQueueId n = n % 2 ^ 32 := by
  show queueState n % 2 ^ 32 = n % 2 ^ 32
  rw [queueState_eq]
  exact Nat.mod_mod_of_dvd n dvd_rfl

/-- The claim C8 is false as literally stated: `queue_count_` is a
`uint32_t`, so within one session the call with index 2^32 returns the
same value (0) as the very first call — neither strictly greater nor
fresh. -/
theorem c8_counterexample :
    nthQueueId 0 = nthQueueId (2 ^ 32) ∧
    ¬ nthQueueId 0 < nthQueueId (2 ^ 32) := by
  rw [nthQueueId_eq, nthQueueId_eq]
  norm_num

/-- Claim C8 (amended): within one session, as long as fewer than 2^32
queue ids have been handed out, `GetQueueId` is strictly monotone (any
later call returns a strictly greater value than any earlier call) and
never returns the same value twice; the backing 32-bit counter wraps
modulo 2^32 beyond that. -/
theorem c8_queue_id_monotone :
    (∀ i j : Nat, i < j → j < 2 ^ 32 → nthQueueId i < nthQueueId j) ∧
    (∀ i j : Nat, i < 2 ^ 32 → j < 2 ^ 32 → nthQueueId i = nthQueueId j → i = j) := by
  constructor
  · intro i j hij hj
    rw [nthQueueId_eq, nthQueueId_eq,
      Nat.mod_eq_of_lt (lt_trans hij hj), Nat.mod_eq_of_lt hj]
    exact hij
  · intro i j hi hj h
    rw [nthQueueId_eq, nthQueueId_eq, Nat.mod_eq_of_lt hi, Nat.mod_eq_of_lt hj] at h
    exact h

/-- Witness for C8 at call indices 1 and 2. -/
theorem c8_witness : nthQueueId 1 < nthQueueId 2 :=
  c8_queue_id_monotone.1 1 2 (by decide) (by norm_num)

/-- Claim C9: the five parallel vectors of an `AsyncEvents` collection
always have equal length — `PushBack`, `PopBack`, `CopyIndex` and
`Clear` each preserve the invariant — so for every index below `Size` a
complete registration tuple (signal, condition, value, handler,
argument) exists in all five vectors. -/
theorem c9_parallel_vectors :
    (∀ (e : AsyncEvents) (signal : hsa_signal_t) (cond : hsa_signal_condition_t)
        (value : hsa_signal_value_t) (handler : hsa_amd_signal_handler) (arg : Nat),
        e.EqLen → (e.PushBack signal cond value handler arg).EqLen) ∧
    (∀ e : AsyncEvents, e.EqLen → e.PopBack.EqLen) ∧
    (∀ (e : AsyncEvents) (dst src : Nat), e.EqLen → (e.CopyIndex dst src).EqLen) ∧
    (∀ e : AsyncEvents, e.Clear.EqLen) ∧
    (∀ (e : AsyncEvents) (i : Nat), e.EqLen → i < e.Size →
        i < e.signal_.length ∧ i < e.cond_.length ∧ i < e.value_.length ∧
        i < e.handler_.length ∧ i < e.arg_.length) := by
  refine ⟨?_, ?_, ?_, ?_, ?_⟩
  · intro e signal cond value handler arg h
    obtain ⟨h1, h2, h3, h4⟩ := h
    refine ⟨?_, ?_, ?_, ?_⟩ <;>
      simp [AsyncEvents.PushBack, h1, h2, h3, h4]
  · intro e h
    obtain ⟨h1, h2, h3, h4⟩ := h
    refine ⟨?_, ?_, ?_, ?_⟩ <;>
      simp [AsyncEvents.PopBack, h1, h2, h3, h4]
  · intro e dst src h
    obtain ⟨h1, h2, h3, h4⟩ := h
    refine ⟨?_, ?_, ?_, ?_⟩ <;>
      simp [AsyncEvents.CopyIndex, h1, h2, h3, h4]
  · intro e
    refine ⟨rfl, rfl, rfl, rfl⟩
  · intro e i h hi
    obtain ⟨h1, h2, h3, h4⟩ := h
    have hs : i < e.signal_.length := hi
    exact ⟨hs, by omega, by omega, by omega, by omega⟩

/-- Witness for C9: one `PushBack` onto the empty collection keeps the
five vectors aligned, and index 0 addresses a complete tuple. -/
theorem c9_witness :
    (AsyncEvents.PushBack
      { signal_ := [], cond_ := [], value_ := [], handler_ := [], arg_ := [] }
      3 hsa_signal_condition_t.HSA_SIGNAL_CONDITION_EQ 0 7 9).EqLen :=
  c9_parallel_vectors.1
    { signal_ := [], cond_ := [], value_ := [], handler_ := [], arg_ := [] }
    3 hsa_signal_condition_t.HSA_SIGNAL_CONDITION_EQ 0 7 9 (by decide)

/-! ## Monitor-loop lemmas -/

/-- Once a registration is out of the active set and never reappears in
the pending buffer, it stays out of the active set. -/
lemma monitorActive_not_mem_later (env : Nat → CycleEnv) (r : Registration) (k : Nat)
    (hbase : r ∉ monitorActive env k)
    (hpend : ∀ j, k ≤ j → r ∉ (env j).pending) :
    ∀ j, k ≤ j → r ∉ monitorActive env j := by
  intro j hj
  induction j, hj using Nat.le_induction with
  | base => exact hbase
  | succ j hj ih =>
    intro hmem
    have hm : r ∈ cycleMerged (env j) (monitorActive env j) :=
      List.mem_of_mem_filter hmem
    rcases List.mem_append.mp hm with h1 | h2
    · exact ih h1
    · exact hpend j hj h2

/-- A registration in the active set stays active across any stretch of
cycles that do not satisfy its condition (unsatisfied registrations are
always kept, spec 4.4 step 3). -/
lemma monitorActive_stay (env : Nat → CycleEnv) (r : Registration) (k : Nat)
    (hbase : r ∈ monitorActive env k) :
    ∀ j, k ≤ j → (∀ i, k ≤ i → i < j → satisfied (env i) r = false) →
      r ∈ monitorActive env j := by
  intro j hj
  induction j, hj using Nat.le_induction with
  | base => intro _; exact hbase
  | succ j hj ih =>
    intro hbet
    have hactj : r ∈ monitorActive env j := ih (fun i hi hij => hbet i hi (by omega))
    have hsatj : satisfied (env j) r = false := hbet j hj (by omega)
    show r ∈ cycleKept (env j) (monitorActive env j)
    refine List.mem_filter.mpr ⟨List.mem_append.mpr (Or.inl hactj), ?_⟩
    rw [hsatj]
    simp

/-- Claim C5: once a registration's callback returns false, that
registration is removed from the active set and (as long as it is not
re-registered through the pending buffer) its callback is never invoked
in any later cycle; if the callback returns true, the registration is
re-armed — it stays in the active set through every following cycle
that does not satisfy its condition, and at the next cycle whose
observed signal values satisfy its (condition, threshold) pair,
whenever that occurs, its callback is invoked again. -/
theorem c5_handler_rearm_removal :
    (∀ (env : Nat → CycleEnv) (r : Registration) (k : Nat),
        r ∈ monitorFired env k →
        (env k).ret r.token = false →
        (∀ j, k < j → r ∉ (env j).pending) →
        ∀ j, k < j → r ∉ monitorActive env j ∧ r ∉ monitorFired env j) ∧
    (∀ (env : Nat → CycleEnv) (r : Registration) (k j : Nat),
        r ∈ cycleMerged (env k) (monitorActive env k) →
        satisfied (env k) r = true →
        (env k).ret r.token = true →
        k < j →
        (∀ i, k < i → i < j → satisfied (env i) r = false) →
        r ∈ monitorActive env j ∧
        (satisfied (env j) r = true → r ∈ monitorFired env j)) := by
  constructor
  · intro env r k hfired hret hpend
    have hsat : satisfied (env k) r = true := by
      have := List.mem_filter.mp hfired
      exact this.2
    have hk1 : r ∉ monitorActive env (k + 1) := by
      intro hmem
      have hmem2 : r ∈ cycleKept (env k) (monitorActive env k) := hmem
      have hcond := (List.mem_filter.mp hmem2).2
      rw [hsat, hret] at hcond
      simp at hcond
    have hactive : ∀ j, k + 1 ≤ j → r ∉ monitorActive env j :=
      monitorActive_not_mem_later env r (k + 1) hk1 (fun j hj => hpend j (by omega))
    intro j hj
    refine ⟨hactive j (by omega), ?_⟩
    intro hf
    have hm : r ∈ cycleMerged (env j) (monitorActive env j) :=
      List.mem_of_mem_filter hf
    rcases List.mem_append.mp hm with h1 | h2
    · exact hactive j (by omega) h1
    · exact hpend j hj h2
  · intro env r k j hmem hsat hret hkj hbet
    have hkept : r ∈ monitorActive env (k + 1) := by
      show r ∈ cycleKept (env k) (monitorActive env k)
      refine List.mem_filter.mpr ⟨hmem, ?_⟩
      rw [hsat, hret]
      simp
    have hactj : r ∈ monitorActive env j :=
      monitorActive_stay env r (k + 1) hkept j (by omega)
        (fun i hi hij => hbet i (by omega) hij)
    refine ⟨hactj, ?_⟩
    intro hsatj
    show r ∈ cycleFired (env j) (monitorActive env j)
    exact List.mem_filter.mpr ⟨List.mem_append.mpr (Or.inl hactj), hsatj⟩

/-- Witness for C5: the demo registration fires in cycle 0, its
callback declines to continue, and it is neither active nor invoked in
cycle 1. -/
theorem c5_witness :
    demoReg ∉ monitorActive demoEnv 1 ∧ demoReg ∉ monitorFired demoEnv 1 :=
  c5_handler_rearm_removal.1 demoEnv demoReg 0 (by decide) (by decide)
    (by
      intro j hj
      have hj0 : j ≠ 0 := by omega
      simp [demoEnv, hj0])
    1 (by decide)

/-! ## Async-copy trace lemmas -/

lemma copyRun_append (deps : List Nat) (xs ys : List CopyEvent) : ∀ st : CopyState,
    copyRun deps st (xs ++ ys)
      = (copyRun deps st xs).bind (fun st1 => copyRun deps st1 ys) := by
  induction xs with
  | nil => intro st; simp [copyRun]
  | cons e xs ih =>
    intro st
    show copyRun deps st (e :: (xs ++ ys)) = _
    cases hstep : copyStep deps st e with
    | none => simp [copyRun, hstep]
    | some st1 => simp [copyRun, hstep, ih]

/-- Each dependency signal's value plus the number of its decrements
along a valid trace is conserved. -/
lemma copyRun_sigVal (deps : List Nat) (tr : List CopyEvent) : ∀ (st stf : CopyState) (d : Nat),
    copyRun deps st tr = some stf →
    stf.sigVal d + tr.count (CopyEvent.decSignal d) = st.sigVal d := by
  induction tr with
  | nil =>
    intro st stf d h
    have heq : st = stf := by simpa [copyRun] using h
    rw [← heq]
    simp
  | cons e rest ih =>
    intro st stf d h
    cases hstep : copyStep deps st e with
    | none => simp [copyRun, hstep] at h
    | some st1 =>
      have h2 : copyRun deps st1 rest = some stf := by
        simpa [copyRun, hstep] using h
      have hrec := ih st1 stf d h2
      cases e with
      | decSignal s =>
        by_cases hz : st.sigVal s = 0
        · simp [copyStep, hz] at hstep
        · have hst1 : st1 = { st with
              sigVal := fun x => if x = s then st.sigVal s - 1 else st.sigVal x } := by
            simp [copyStep, hz] at hstep
            exact hstep.symm
          by_cases hsd : d = s
          · have hvd : st1.sigVal d = st.sigVal d - 1 := by
              rw [hst1]
              simp [hsd]
            have hz2 : st.sigVal d ≠ 0 := by rw [hsd]; exact hz
            have hcd : (CopyEvent.decSignal s :: rest).count (CopyEvent.decSignal d)
                = rest.count (CopyEvent.decSignal d) + 1 := by
              simp [List.count_cons, hsd]
            rw [hcd]
            rw [hvd] at hrec
            omega
          · have hvd : st1.sigVal d = st.sigVal d := by
              rw [hst1]
              simp [hsd]
            have hcd : (CopyEvent.decSignal s :: rest).count (CopyEvent.decSignal d)
                = rest.count (CopyEvent.decSignal d) := by
              simp [List.count_cons, hsd]
            rw [hcd]
            rw [hvd] at hrec
            exact hrec
      | startCopy =>
        by_cases hs1 : st.started = true
        · simp [copyStep, hs1] at hstep
        · by_cases hall : deps.all (fun d2 => st.sigVal d2 == 0) = true
          · have hst1 : st1 = { st with started := true } := by
              simp [copyStep, hs1, hall] at hstep
              exact hstep.symm
            have hv : st1.sigVal d = st.sigVal d := by rw [hst1]
            have hc : (CopyEvent.startCopy :: rest).count (CopyEvent.decSignal d)
                = rest.count (CopyEvent.decSignal d) := by simp [List.count_cons]
            rw [hc, ← hv]
            exact hrec
          · simp [copyStep, hs1, hall] at hstep
      | completeCopy =>
        by_cases hg : (st.started && !st.completed) = true
        · have hst1 : st1 = { st with completed := true, complVal := st.complVal - 1 } := by
            simp [copyStep, hg] at hstep
            exact hstep.symm
          have hv : st1.sigVal d = st.sigVal d := by rw [hst1]
          have hc : (CopyEvent.completeCopy :: rest).count (CopyEvent.decSignal d)
              = rest.count (CopyEvent.decSignal d) := by simp [List.count_cons]
          rw [hc, ← hv]
          exact hrec
        · simp [copyStep, hg] at hstep

/-- Once the copy is completed, a valid trace contains no further
completion events and the completion signal stays put. -/
lemma copyRun_completed (deps : List Nat) (tr : List CopyEvent) : ∀ (st stf : CopyState),
    copyRun deps st tr = some stf → st.completed = true →
    tr.count CopyEvent.completeCopy = 0 ∧ stf.complVal = st.complVal := by
  induction tr with
  | nil =>
    intro st stf h _
    have heq : st = stf := by simpa [copyRun] using h
    rw [← heq]
    simp
  | cons e rest ih =>
    intro st stf h hc
    cases hstep : copyStep deps st e with
    | none => simp [copyRun, hstep] at h
    | some st1 =>
      have h2 : copyRun deps st1 rest = some stf := by
        simpa [copyRun, hstep] using h
      cases e with
      | decSignal s =>
        by_cases hz : st.sigVal s = 0
        · simp [copyStep, hz] at hstep
        · have hst1 : st1 = { st with
              sigVal := fun x => if x = s then st.sigVal s - 1 else st.sigVal x } := by
            simp [copyStep, hz] at hstep
            exact hstep.symm
          have hcomp : st1.completed = true := by rw [hst1]; exact hc
          have hcompl : st1.complVal = st.complVal := by rw [hst1]
          obtain ⟨g1, g2⟩ := ih st1 stf h2 hcomp
          exact ⟨by simp [List.count_cons, g1], by rw [g2, hcompl]⟩
      | startCopy =>
        by_cases hs1 : st.started = true
        · simp [copyStep, hs1] at hstep
        · by_cases hall : deps.all (fun d2 => st.sigVal d2 == 0) = true
          · have hst1 : st1 = { st with started := true } := by
              simp [copyStep, hs1, hall] at hstep
              exact hstep.symm
            have hcomp : st1.completed = true := by rw [hst1]; exact hc
            have hcompl : st1.complVal = st.complVal := by rw [hst1]
            obtain ⟨g1, g2⟩ := ih st1 stf h2 hcomp
            exact ⟨by simp [List.count_cons, g1], by rw [g2, hcompl]⟩
          · simp [copyStep, hs1, hall] at hstep
      | completeCopy =>
        have hg : (st.started && !st.completed) = false := by
          rw [hc]
          simp
        simp [copyStep, hg] at hstep

/-- A valid trace of a submission that has not yet completed contains
at most one completion event, and the completion signal is decremented
exactly when the completion event occurs. -/
lemma copyRun_complete_once (deps : List Nat) (tr : List CopyEvent) : ∀ (st stf : CopyState),
    copyRun deps st tr = some stf → st.completed = false →
    tr.count CopyEvent.completeCopy ≤ 1 ∧
    (CopyEvent.completeCopy ∈ tr →
      tr.count CopyEvent.completeCopy = 1 ∧ stf.complVal = st.complVal - 1) ∧
    (CopyEvent.completeCopy ∉ tr → stf.complVal = st.complVal) := by
  induction tr with
  | nil =>
    intro st stf h _
    have heq : st = stf := by simpa [copyRun] using h
    rw [← heq]
    refine ⟨by simp, by simp, fun _ => rfl⟩
  | cons e rest ih =>
    intro st stf h hc
    cases hstep : copyStep deps st e with
    | none => simp [copyRun, hstep] at h
    | some st1 =>
      have h2 : copyRun deps st1 rest = some stf := by
        simpa [copyRun, hstep] using h
      cases e with
      | decSignal s =>
        by_cases hz : st.sigVal s = 0
        · simp [copyStep, hz] at hstep
        · have hst1 : st1 = { st with
              sigVal := fun x => if x = s then st.sigVal s - 1 else st.sigVal x } := by
            simp [copyStep, hz] at hstep
            exact hstep.symm
          have hcomp : st1.completed = false := by rw [hst1]; exact hc
          have hcompl : st1.complVal = st.complVal := by rw [hst1]
          obtain ⟨g1, g2, g3⟩ := ih st1 stf h2 hcomp
          have hcnt : (CopyEvent.decSignal s :: rest).count CopyEvent.completeCopy
              = rest.count CopyEvent.completeCopy := by simp [List.count_cons]
          rw [hcnt]
          refine ⟨g1, ?_, ?_⟩
          · intro hm
            have hm2 : CopyEvent.completeCopy ∈ rest := by
              rcases List.mem_cons.mp hm with hx | hx
              · exact absurd hx (by simp)
              · exact hx
            obtain ⟨g2a, g2b⟩ := g2 hm2
            exact ⟨g2a, by rw [g2b, hcompl]⟩
          · intro hm
            have hm2 : CopyEvent.completeCopy ∉ rest := fun hx => hm (List.mem_cons_of_mem _ hx)
            rw [g3 hm2, hcompl]
      | startCopy =>
        by_cases hs1 : st.started = true
        · simp [copyStep, hs1] at hstep
        · by_cases hall : deps.all (fun d2 => st.sigVal d2 == 0) = true
          · have hst1 : st1 = { st with started := true } := by
              simp [copyStep, hs1, hall] at hstep
              exact hstep.symm
            have hcomp : st1.completed = false := by rw [hst1]; exact hc
            have hcompl : st1.complVal = st.complVal := by rw [hst1]
            obtain ⟨g1, g2, g3⟩ := ih st1 stf h2 hcomp
            have hcnt : (CopyEvent.startCopy :: rest).count CopyEvent.completeCopy
                = rest.count CopyEvent.completeCopy := by simp [List.count_cons]
            rw [hcnt]
            refine ⟨g1, ?_, ?_⟩
            · intro hm
              have hm2 : CopyEvent.completeCopy ∈ rest := by
                rcases List.mem_cons.mp hm with hx | hx
                · exact absurd hx (by simp)
                · exact hx
              obtain ⟨g2a, g2b⟩ := g2 hm2
              exact ⟨g2a, by rw [g2b, hcompl]⟩
            · intro hm
              have hm2 : CopyEvent.completeCopy ∉ rest := fun hx => hm (List.mem_cons_of_mem _ hx)
              rw [g3 hm2, hcompl]
          · simp [copyStep, hs1, hall] at hstep
      | completeCopy =>
        by_cases hg : (st.started && !st.completed) = true
        · have hst1 : st1 = { st with completed := true, complVal := st.complVal - 1 } := by
            simp [copyStep, hg] at hstep
            exact hstep.symm
          have hcomp : st1.completed = true := by rw [hst1]
          have hcompl : st1.complVal = st.complVal - 1 := by rw [hst1]
          obtain ⟨g1, g2⟩ := copyRun_completed deps rest st1 stf h2 hcomp
          have hcnt : (CopyEvent.completeCopy :: rest).count CopyEvent.completeCopy
              = rest.count CopyEvent.completeCopy + 1 := by simp [List.count_cons]
          rw [hcnt, g1]
          refine ⟨by omega, fun _ => ⟨by omega, by rw [g2, hcompl]⟩, ?_⟩
          intro hm
          exact absurd (List.mem_cons_self _ _) hm
        · simp [copyStep, hg] at hstep

/-- Claim C4: in every valid behaviour of an asynchronous `CopyMemory`
submission, the copy does not begin until every dependency signal has
reached value zero — at the start event each dependency signal reads 0,
having been decremented from its initial value all the way down,
whatever the interleaving order of the decrements — and the completion
signal is decremented exactly once, exactly when the copy completes. -/
theorem c4_async_copy :
    (∀ (deps : List Nat) (st0 : CopyState) (pre post : List CopyEvent),
        (copyRun deps st0 (pre ++ CopyEvent.startCopy :: post)).isSome = true →
        (copyRun deps st0 pre).isSome = true ∧
        ∀ d ∈ deps,
          (copyRun deps st0 pre).map (fun st => st.sigVal d) = some 0 ∧
          pre.count (CopyEvent.decSignal d) = st0.sigVal d) ∧
    (∀ (deps : List Nat) (st0 : CopyState) (tr : List CopyEvent),
        (copyRun deps st0 tr).isSome = true →
        st0.completed = false →
        tr.count CopyEvent.completeCopy ≤ 1 ∧
        (CopyEvent.completeCopy ∈ tr →
          tr.count CopyEvent.completeCopy = 1 ∧
          (copyRun deps st0 tr).map (fun st => st.complVal) = some (st0.complVal - 1)) ∧
        (CopyEvent.completeCopy ∉ tr →
          (copyRun deps st0 tr).map (fun st => st.complVal) = some st0.complVal)) := by
  constructor
  · intro deps st0 pre post hs
    obtain ⟨stf, hf⟩ := Option.isSome_iff_exists.mp hs
    rw [copyRun_append] at hf
    cases hmid : copyRun deps st0 pre with
    | none => rw [hmid] at hf; simp at hf
    | some stMid =>
      rw [hmid] at hf
      simp only [Option.some_bind] at hf
      have hstep0 : ∃ st2, copyStep deps stMid CopyEvent.startCopy = some st2 := by
        cases hst : copyStep deps stMid CopyEvent.startCopy with
        | none => simp [copyRun, hst] at hf
        | some st2 => exact ⟨st2, rfl⟩
      obtain ⟨st2, hst2⟩ := hstep0
      have hall : deps.all (fun d => stMid.sigVal d == 0) = true := by
        by_cases hs1 : stMid.started = true
        · simp [copyStep, hs1] at hst2
        · by_cases hall2 : deps.all (fun d => stMid.sigVal d == 0) = true
          · exact hall2
          · simp [copyStep, hs1, hall2] at hst2
      constructor
      · rfl
      · intro d hd
        have hz : stMid.sigVal d = 0 := by
          have := List.all_eq_true.mp hall d hd
          simpa using this
        constructor
        · simp [hz]
        · have hcons := copyRun_sigVal deps pre st0 stMid d hmid
          omega
  · intro deps st0 tr hs hc
    obtain ⟨stf, hf⟩ := Option.isSome_iff_exists.mp hs
    obtain ⟨g1, g2, g3⟩ := copyRun_complete_once deps tr st0 stf hf hc
    refine ⟨g1, ?_, ?_⟩
    · intro hm
      obtain ⟨g2a, g2b⟩ := g2 hm
      exact ⟨g2a, by rw [hf]; simp [g2b]⟩
    · intro hm
      rw [hf]
      simp [g3 hm]

/-- Witness for C4: one dependency signal (7, starting at 2) is
decremented twice before the copy starts; the barrier theorem applies
to the valid demo trace. -/
theorem c4_witness :
    (copyRun [7] demoCopyState demoCopyPre).isSome = true ∧
    ∀ d ∈ [7],
      (copyRun [7] demoCopyState demoCopyPre).map (fun st => st.sigVal d) = some 0 ∧
      demoCopyPre.count (CopyEvent.decSignal d) = demoCopyState.sigVal d :=
  c4_async_copy.1 [7] demoCopyState demoCopyPre [CopyEvent.completeCopy] (by rfl)
